import Mathlib

/-!
Verification development for the Elitemoney Pro Manager backend
(`main.py`, `schemas.py`).

The core under study is:
* `compute_cash_flow`     — income/expense/net aggregation,
* `compute_social_balances` — per-user balance netting for social expenses,
* `workspace_summary`     — summary dispatch (company / social / home),
* `receipt_scan` / `financial_advisor` — pseudo-AI endpoints with
  quota-simulated fail-safe fallback.

Modelling conventions:
* Python dicts of transaction fields become a structure of `Option`-typed
  fields; `t.get(k)` is the field itself, `t.get(k, d)` is `·.getD d`.
* Monetary amounts and shares are rationals `ℚ` (the Python source uses
  floats; the algorithms are plain field arithmetic, which we model
  exactly).
* The Python balance dict is a pair of an insertion-ordered key list and a
  valuation function (`Balances`); `dict.get(k, 0.0)` is `bget`,
  `dict[k] = v` is `bset`.  Dict keys may be `None` in Python (a
  beneficiary record can lack `user_id`), so keys are `Option String`.
* Dates are integers (days); `timedelta(days=30)` is the literal `30`.
* Exceptions are modelled with `Except`: the endpoint body returns
  `Except PyExc _`, and the endpoint applies the source's handlers to it.
-/

namespace EliteMoney

/-- A Python dict key: `None` or a string (beneficiary `user_id` may be
absent, and the resulting `balances[None]` key is legal Python). -/
abbrev Key := Option String

/-- One element of a transaction's `beneficiaries` list, as read by
`compute_social_balances` via `b.get("user_id")` and `b.get("share", 0)`. -/
structure Beneficiary where
  user_id : Key
  share : Option ℚ
  deriving DecidableEq, Repr

/-- A transaction record as a plain field mapping, with every field
optional the way `dict.get` sees it. -/
structure TransactionRecord where
  workspace_id : Option String := none
  type : Option String := none
  amount : Option ℚ := none
  date : Option ℤ := none
  category : Option String := none
  status : Option String := none
  direction : Option String := none
  payer_id : Option String := none
  split_method : Option String := none
  beneficiaries : Option (List Beneficiary) := none
  deriving DecidableEq, Repr

/-- Python truthiness of an optional string: `not s` holds for `None` and
for the empty string. -/
def falsy : Option String → Bool
  | none => true
  | some s => s = ""

/-! ### The balance dict -/

/-- The Python `balances` dict: insertion-ordered key list plus valuation.
A key not in `keys` is absent from the dict. -/
structure Balances where
  keys : List Key
  val : Key → ℚ

/-- `balances = {}` -/
def Balances.empty : Balances := ⟨[], fun _ => 0⟩

/-- `balances.get(k, 0.0)` -/
def bget (b : Balances) (k : Key) : ℚ :=
  if k ∈ b.keys then b.val k else 0

/-- `balances[k] = v` (inserts the key at the end if absent). -/
def bset (b : Balances) (k : Key) (v : ℚ) : Balances :=
  ⟨if k ∈ b.keys then b.keys else b.keys ++ [k],
   fun x => if x = k then v else b.val x⟩

/-- Sum of the values held in the dict (the map's values summed). -/
def sumVals (b : Balances) : ℚ := (b.keys.map b.val).sum

/-! ### Cash flow (`compute_cash_flow`, main.py lines 58–61) -/

structure CashFlow where
  income : ℚ
  expense : ℚ
  net : ℚ
  deriving DecidableEq, Repr

/-- `compute_cash_flow`:
`income = sum(t.get("amount", 0) for t in txns if t.get("direction") == "income")`,
likewise for expense, and `net = income - expense`. -/
def compute_cash_flow (transactions : List TransactionRecord) : CashFlow :=
  let income :=
    ((transactions.filter (fun t => t.direction == some "income")).map
      (fun t => t.amount.getD 0)).sum
  let expense :=
    ((transactions.filter (fun t => t.direction == some "expense")).map
      (fun t => t.amount.getD 0)).sum
  ⟨income, expense, income - expense⟩

/-! ### Social balance netting (`compute_social_balances`, main.py 64–90) -/

/-- Inner loop body of `compute_social_balances` for one record. -/
def processRecord (balances : Balances) (t : TransactionRecord) : Balances :=
  if t.type ≠ some "social" then balances
  else
    let payer : Key := t.payer_id
    let amount : ℚ := t.amount.getD 0
    let beneficiaries : List Beneficiary := t.beneficiaries.getD []
    if falsy t.payer_id ∨ amount ≤ 0 ∨ beneficiaries = [] then balances
    else
      -- balances[payer] = balances.get(payer, 0.0)
      let b1 := bset balances payer (bget balances payer)
      if t.split_method = some "percentage" then
        let b2 := beneficiaries.foldl (fun acc ben =>
          bset acc ben.user_id
            (bget acc ben.user_id - amount * ben.share.getD 0)) b1
        bset b2 payer (bget b2 payer + amount)
      else
        let per_head := amount / (beneficiaries.length : ℚ)
        let b2 := beneficiaries.foldl (fun acc ben =>
          bset acc ben.user_id (bget acc ben.user_id - per_head)) b1
        bset b2 payer (bget b2 payer + amount)

/-- `compute_social_balances`: fold `processRecord` over the input,
starting from the empty dict. -/
def compute_social_balances (transactions : List TransactionRecord) : Balances :=
  transactions.foldl processRecord Balances.empty

/-! ### Summary dispatch (`workspace_summary`, main.py 137–154) -/

inductive SummaryResult where
  | company (cash_flow : CashFlow) (pending : ℚ)
  | social (balances : Balances)
  | home (budget : CashFlow)

/-- Python's `str.lower()`, modelled characterwise over the string's
characters. -/
def strLower (s : String) : String := String.mk (s.data.map Char.toLower)

/-- Pending-invoice total computed inline in the company branch:
`sum(t.get("amount", 0) for t in txns if t.get("status") == "Pending")`. -/
def pendingSum (txns : List TransactionRecord) : ℚ :=
  ((txns.filter (fun t => t.status == some "Pending")).map
    (fun t => t.amount.getD 0)).sum

/-- `workspace_summary` after the storage fetch: `txns` is the fetched
list, `mode0` the optional query parameter. -/
def workspace_summary (txns : List TransactionRecord) (mode0 : Option String) :
    SummaryResult :=
  -- if not mode and txns: mode = txns[0].get("type")
  let mode1 : Option String :=
    if falsy mode0 then
      match txns with
      | [] => mode0
      | t :: _ => t.type
    else mode0
  -- mode = (mode or "home").lower()
  let modeStr : String :=
    strLower (if falsy mode1 then "home" else mode1.getD "home")
  if modeStr = "company" then
    .company (compute_cash_flow txns) (pendingSum txns)
  else if modeStr = "social" then
    .social (compute_social_balances txns)
  else
    .home (compute_cash_flow txns)

/-! ### Pseudo-AI endpoints (`receipt_scan` 158–191, `financial_advisor` 193–211)

The environment flag `SIMULATE_AI_QUOTA` is the boolean `simulate_quota`;
the awaited file read and the storage fetch are the only operations in
the `try` bodies that can fail, so each is passed in as an
`Except Unit _` outcome. `datetime.utcnow()` is passed in as `today`
(its date as a string) resp. `now : ℤ` (days). -/

/-- A raised Python exception as seen by the handlers: FastAPI's
`HTTPException(status_code, detail)` or any other exception. -/
inductive PyExc where
  | http (status : Nat) (detail : String)
  | generic
  deriving DecidableEq, Repr

/-- Response body of the receipt-scan endpoint. -/
structure ScanResult where
  merchant : String
  amount : ℚ
  date : String
  demo : Bool
  message : Option String
  deriving DecidableEq, Repr

/-- The `try` body of `receipt_scan`: raise 429 when the quota flag is
set, otherwise await the file read and return the fixed mock. -/
def receipt_scan_body (simulate_quota : Bool)
    (fileRead : Except Unit (List Nat)) (today : String) :
    Except PyExc ScanResult :=
  if simulate_quota then .error (.http 429 "Quota Exceeded")
  else
    match fileRead with
    | .error _ => .error .generic
    | .ok _content => .ok ⟨"Parsed Merchant", 85/2, today, false, none⟩

/-- `receipt_scan` with its two `except` handlers applied to the body:
an `HTTPException` with status 429 becomes the quota demo payload, any
other `HTTPException` is re-raised, and any other exception becomes the
generic demo payload. -/
def receipt_scan (simulate_quota : Bool)
    (fileRead : Except Unit (List Nat)) (today : String) :
    Except PyExc ScanResult :=
  match receipt_scan_body simulate_quota fileRead today with
  | .ok r => .ok r
  | .error (.http 429 _) =>
      .ok ⟨"Demo Store", 50, today, true, some "Quota exceeded - using demo data"⟩
  | .error (.http s d) => .error (.http s d)
  | .error .generic =>
      .ok ⟨"Demo Store", 50, today, true, some "AI unavailable - using demo data"⟩

/-- Response body of the advisor endpoint (`net30` present only on the
non-demo path). -/
structure AdvisorResult where
  demo : Bool
  advice : String
  net30 : Option ℚ
  deriving DecidableEq, Repr

/-- The 30-day window filter of the advisor:
`[t for t in txns if t.get("date", since) >= since]` with
`since = now - 30 days`, so a record lacking a date compares the default
`since >= since` and is kept. -/
def advisor_window (now : ℤ) (txns : List TransactionRecord) :
    List TransactionRecord :=
  txns.filter (fun t => now - 30 ≤ t.date.getD (now - 30))

/-- The `try` body of `financial_advisor`: raise 429 when the quota flag
is set, otherwise fetch, filter to the last 30 days, compute cash flow
and pick the heuristic advice string by the sign of `net`. -/
def financial_advisor_body (simulate_quota : Bool)
    (fetch : Except Unit (List TransactionRecord)) (now : ℤ) :
    Except PyExc AdvisorResult :=
  if simulate_quota then .error (.http 429 "Quota Exceeded")
  else
    match fetch with
    | .error _ => .error .generic
    | .ok txns =>
        let cash := compute_cash_flow (advisor_window now txns)
        let insight :=
          if 0 ≤ cash.net then
            "You\x27re on track. Keep expenses under 80% of income."
          else
            "Spending exceeds income. Consider cutting non-essentials."
        .ok ⟨false, insight, some cash.net⟩

/-- The fixed demo payload of the advisor, returned both on quota and on
any other failure. -/
def advisorDemo : AdvisorResult :=
  ⟨true, "Limit Reached: Try to save 20% of your income this month.", none⟩

/-- `financial_advisor` with its two `except` handlers applied to the
body: status 429 and any non-HTTP exception both yield `advisorDemo`;
another `HTTPException` would be re-raised. -/
def financial_advisor (simulate_quota : Bool)
    (fetch : Except Unit (List TransactionRecord)) (now : ℤ) :
    Except PyExc AdvisorResult :=
  match financial_advisor_body simulate_quota fetch now with
  | .ok r => .ok r
  | .error (.http 429 _) => .ok advisorDemo
  | .error (.http s d) => .error (.http s d)
  | .error .generic => .ok advisorDemo

/-! ### Spec-side definitions

These restate the spec's English descriptions as direct recursions, to be
compared with the implementation definitions above. -/

/-- Spec-side income: "`income` = sum of `amount` over records whose
`direction == income`", a missing amount contributing 0, every other
record contributing nothing. -/
def incomeSpec : List TransactionRecord → ℚ
  | [] => 0
  | t :: ts =>
      (if t.direction = some "income" then t.amount.getD 0 else 0) + incomeSpec ts

/-- Spec-side expense: sum of `amount` over records whose
`direction == expense`. -/
def expenseSpec : List TransactionRecord → ℚ
  | [] => 0
  | t :: ts =>
      (if t.direction = some "expense" then t.amount.getD 0 else 0) + expenseSpec ts

/-- Spec-side pending-invoice total: sum of `amount` over records with
`status == "Pending"`, regardless of direction or type. -/
def pendingSpec : List TransactionRecord → ℚ
  | [] => 0
  | t :: ts =>
      (if t.status = some "Pending" then t.amount.getD 0 else 0) + pendingSpec ts

/-- Spec-side 30-day window: keep a record when its date is at least
`now - 30` days, and always keep a record that has no date (treated as
exactly at the boundary). -/
def advisor_window_spec (now : ℤ) (txns : List TransactionRecord) :
    List TransactionRecord :=
  txns.filter (fun t =>
    match t.date with
    | none => true
    | some d => now - 30 ≤ d)

/-- A record passes the guards of `compute_social_balances` (is netted
rather than skipped): social type, truthy payer, positive amount,
non-empty beneficiary list. -/
abbrev isProcessed (t : TransactionRecord) : Prop :=
  t.type = some "social" ∧ falsy t.payer_id = false ∧
    0 < t.amount.getD 0 ∧ t.beneficiaries.getD [] ≠ []

/-- Sum of the beneficiary shares of a record (`b.get("share", 0)`). -/
def sharesSum (t : TransactionRecord) : ℚ :=
  ((t.beneficiaries.getD []).map (fun ben => ben.share.getD 0)).sum

/-! ### Concrete records used by counterexamples and witnesses -/

/-- Equal-split example of §8: amount 90 paid by P for A, B, C. -/
def tEqual : TransactionRecord :=
  { type := some "social", amount := some 90, payer_id := some "P",
    split_method := some "equal",
    beneficiaries := some [⟨some "A", none⟩, ⟨some "B", none⟩, ⟨some "C", none⟩] }

/-- Percentage-split example of §8: amount 100, shares 0.6 and 0.4. -/
def tPct : TransactionRecord :=
  { type := some "social", amount := some 100, payer_id := some "P",
    split_method := some "percentage",
    beneficiaries := some [⟨some "A", some (6/10)⟩, ⟨some "B", some (4/10)⟩] }

/-- Over-allocated percentage split: amount 100, shares 0.7 and 0.5
(summing to 1.2). -/
def tOver : TransactionRecord :=
  { type := some "social", amount := some 100, payer_id := some "P",
    split_method := some "percentage",
    beneficiaries := some [⟨some "A", some (7/10)⟩, ⟨some "B", some (5/10)⟩] }

/-- Percentage split in which the payer also appears as a beneficiary
with share 1/4, next to a beneficiary with a missing share. -/
def tPayerBen : TransactionRecord :=
  { type := some "social", amount := some 100, payer_id := some "P",
    split_method := some "percentage",
    beneficiaries := some [⟨some "P", some (1/4)⟩, ⟨some "A", some (3/4)⟩,
                           ⟨some "B", none⟩] }

/-- A social record with no amount field. -/
def tNoAmount : TransactionRecord :=
  { type := some "social", payer_id := some "P",
    split_method := some "equal",
    beneficiaries := some [⟨some "A", none⟩] }

/-- An expense-only record dated 29 days before `now = 100`. -/
def tExpense29 : TransactionRecord :=
  { type := some "home", amount := some 10, date := some 71,
    direction := some "expense" }

/-! ## Lemmas about the balance dict -/

theorem bget_empty (k : Key) : bget Balances.empty k = 0 := by
  simp [bget, Balances.empty]

theorem sumVals_empty : sumVals Balances.empty = 0 := by
  simp [sumVals, Balances.empty]

theorem nodup_empty : Balances.empty.keys.Nodup := by
  simp [Balances.empty]

theorem mem_keys_bset (b : Balances) (k k' : Key) (v : ℚ) :
    k' ∈ (bset b k v).keys ↔ k' ∈ b.keys ∨ k' = k := by
  by_cases h : k ∈ b.keys
  · simp only [bset, if_pos h]
    exact ⟨Or.inl, fun h' => h'.elim id (fun e => e ▸ h)⟩
  · simp [bset, if_neg h]

theorem nodup_keys_bset (b : Balances) (k : Key) (v : ℚ)
    (hnd : b.keys.Nodup) : (bset b k v).keys.Nodup := by
  by_cases h : k ∈ b.keys
  · simpa [bset, if_pos h] using hnd
  · simp only [bset, if_neg h]
    exact List.Nodup.append hnd (List.nodup_singleton k)
      (by simpa [List.disjoint_singleton] using h)

theorem bget_bset (b : Balances) (k k' : Key) (v : ℚ) :
    bget (bset b k v) k' = if k' = k then v else bget b k' := by
  by_cases hk' : k' = k
  · subst hk'
    have hmem : k' ∈ (bset b k' v).keys := (mem_keys_bset b k' k' v).mpr (Or.inr rfl)
    rw [if_pos rfl]
    unfold bget
    rw [if_pos hmem]
    simp [bset]
  · rw [if_neg hk']
    have hmem : k' ∈ (bset b k v).keys ↔ k' ∈ b.keys := by
      rw [mem_keys_bset]
      exact ⟨fun h' => h'.elim id (fun e => absurd e hk'), Or.inl⟩
    unfold bget
    by_cases h : k' ∈ b.keys
    · rw [if_pos (hmem.mpr h), if_pos h]
      simp [bset, hk']
    · rw [if_neg (fun hc => h (hmem.mp hc)), if_neg h]

theorem sum_map_ite_of_not_mem (l : List Key) (f : Key → ℚ) (k : Key) (v : ℚ)
    (hk : k ∉ l) :
    (l.map fun x => if x = k then v else f x).sum = (l.map f).sum := by
  have : (l.map fun x => if x = k then v else f x) = l.map f := by
    apply List.map_congr_left
    intro x hx
    have : x ≠ k := fun e => hk (e ▸ hx)
    simp [this]
  rw [this]

theorem sum_map_ite_of_mem (l : List Key) (f : Key → ℚ) (k : Key) (v : ℚ) :
    l.Nodup → k ∈ l →
    (l.map fun x => if x = k then v else f x).sum = (l.map f).sum - f k + v := by
  induction l with
  | nil => intro _ hk; cases hk
  | cons a t ih =>
      intro hnd hk
      rcases List.nodup_cons.mp hnd with ⟨ha, hndt⟩
      rcases List.mem_cons.mp hk with hak | hkt
      · subst hak
        simp only [List.map_cons, List.sum_cons, if_pos rfl]
        rw [sum_map_ite_of_not_mem t f k v ha]
        simp only [if_true]
        ring
      · have hne : a ≠ k := fun e => ha (e ▸ hkt)
        simp only [List.map_cons, List.sum_cons, if_neg hne]
        rw [ih hndt hkt]
        ring

theorem sumVals_bset (b : Balances) (k : Key) (v : ℚ)
    (hnd : b.keys.Nodup) :
    sumVals (bset b k v) = sumVals b - bget b k + v := by
  by_cases h : k ∈ b.keys
  · simp only [sumVals, bset, if_pos h, bget]
    rw [sum_map_ite_of_mem b.keys b.val k v hnd h]
  · simp only [sumVals, bset, if_neg h, bget, List.map_append, List.sum_append]
    rw [sum_map_ite_of_not_mem b.keys b.val k v h]
    simp [h]

/-! ## Lemmas about the beneficiary debit loop

Both split branches of `compute_social_balances` run
`balances[uid] = balances.get(uid, 0.0) - d(ben)` over the beneficiary
list; the lemmas below are generic in the debit function `d`. -/

theorem foldl_debit_nodup (d : Beneficiary → ℚ) (bens : List Beneficiary) :
    ∀ b : Balances, b.keys.Nodup →
      ((bens.foldl (fun acc ben =>
        bset acc ben.user_id (bget acc ben.user_id - d ben)) b).keys.Nodup) := by
  induction bens with
  | nil => intro b hnd; simpa using hnd
  | cons ben t ih =>
      intro b hnd
      simp only [List.foldl_cons]
      exact ih _ (nodup_keys_bset _ _ _ hnd)

theorem foldl_debit_sumVals (d : Beneficiary → ℚ) (bens : List Beneficiary) :
    ∀ b : Balances, b.keys.Nodup →
      sumVals (bens.foldl (fun acc ben =>
          bset acc ben.user_id (bget acc ben.user_id - d ben)) b)
        = sumVals b - (bens.map d).sum := by
  induction bens with
  | nil => intro b _; simp
  | cons ben t ih =>
      intro b hnd
      simp only [List.foldl_cons, List.map_cons, List.sum_cons]
      rw [ih _ (nodup_keys_bset _ _ _ hnd)]
      rw [sumVals_bset _ _ _ hnd]
      ring

theorem foldl_debit_mem (d : Beneficiary → ℚ) (bens : List Beneficiary) :
    ∀ (b : Balances) (k : Key),
      k ∈ (bens.foldl (fun acc ben =>
          bset acc ben.user_id (bget acc ben.user_id - d ben)) b).keys
        ↔ k ∈ b.keys ∨ ∃ ben ∈ bens, ben.user_id = k := by
  induction bens with
  | nil => intro b k; simp
  | cons ben t ih =>
      intro b k
      simp only [List.foldl_cons, ih, mem_keys_bset, List.mem_cons]
      constructor
      · rintro (⟨h | h⟩ | ⟨x, hx, hxk⟩)
        · exact Or.inl h
        · exact Or.inr ⟨ben, Or.inl rfl, h.symm⟩
        · exact Or.inr ⟨x, Or.inr hx, hxk⟩
      · rintro (h | ⟨x, hx | hx, hxk⟩)
        · exact Or.inl (Or.inl h)
        · exact Or.inl (Or.inr (hx ▸ hxk.symm))
        · exact Or.inr ⟨x, hx, hxk⟩

theorem foldl_debit_bget (d : Beneficiary → ℚ) (bens : List Beneficiary) :
    ∀ (b : Balances) (k : Key),
      bget (bens.foldl (fun acc ben =>
          bset acc ben.user_id (bget acc ben.user_id - d ben)) b) k
        = bget b k
            - ((bens.filter (fun ben => ben.user_id == k)).map d).sum := by
  induction bens with
  | nil => intro b k; simp
  | cons ben t ih =>
      intro b k
      simp only [List.foldl_cons]
      rw [ih]
      by_cases h : ben.user_id = k
      · rw [List.filter_cons_of_pos (by simpa using h)]
        rw [bget_bset, if_pos h.symm, h]
        simp only [List.map_cons, List.sum_cons]
        ring
      · rw [List.filter_cons_of_neg (by simpa using h)]
        rw [bget_bset, if_neg (fun e => h e.symm)]

theorem filter_user_id_eq_singleton (bens : List Beneficiary) :
    (bens.map (fun ben => ben.user_id)).Nodup →
    ∀ ben ∈ bens, bens.filter (fun x => x.user_id == ben.user_id) = [ben] := by
  induction bens with
  | nil => intro _ ben hben; cases hben
  | cons a t ih =>
      intro hnd ben hben
      simp only [List.map_cons] at hnd
      rcases List.nodup_cons.mp hnd with ⟨ha, hndt⟩
      rcases List.mem_cons.mp hben with hab | hbt
      · subst hab
        rw [List.filter_cons_of_pos (by simp)]
        have : t.filter (fun x => x.user_id == ben.user_id) = [] := by
          rw [List.filter_eq_nil_iff]
          intro x hx
          simp only [beq_iff_eq]
          exact fun e => ha (e ▸ List.mem_map_of_mem (fun y => y.user_id) hx)
        rw [this]
      · have hne : a.user_id ≠ ben.user_id := by
          intro e
          exact ha (e ▸ List.mem_map_of_mem (fun y => y.user_id) hbt)
        rw [List.filter_cons_of_neg (by simpa using hne), ih hndt ben hbt]

theorem filter_user_id_eq_nil (bens : List Beneficiary) (k : Key)
    (hk : k ∉ bens.map (fun ben => ben.user_id)) :
    bens.filter (fun x => x.user_id == k) = [] := by
  rw [List.filter_eq_nil_iff]
  intro x hx
  simp only [beq_iff_eq]
  exact fun e => hk (e ▸ List.mem_map_of_mem (fun y => y.user_id) hx)

/-! ## Branch lemmas for `processRecord` -/

theorem processRecord_not_social (b : Balances) (t : TransactionRecord)
    (h : t.type ≠ some "social") : processRecord b t = b := by
  simp only [processRecord, if_pos h]

theorem processRecord_skip (b : Balances) (t : TransactionRecord)
    (h1 : t.type = some "social")
    (h2 : falsy t.payer_id ∨ t.amount.getD 0 ≤ 0 ∨ t.beneficiaries.getD [] = []) :
    processRecord b t = b := by
  simp only [processRecord]
  rw [if_neg (not_not.mpr h1), if_pos h2]

theorem processRecord_pct (b : Balances) (t : TransactionRecord)
    (h1 : t.type = some "social")
    (h2 : ¬(falsy t.payer_id ∨ t.amount.getD 0 ≤ 0 ∨ t.beneficiaries.getD [] = []))
    (h3 : t.split_method = some "percentage") :
    processRecord b t =
      bset ((t.beneficiaries.getD []).foldl (fun acc ben =>
          bset acc ben.user_id
            (bget acc ben.user_id - t.amount.getD 0 * ben.share.getD 0))
        (bset b t.payer_id (bget b t.payer_id)))
        t.payer_id
        (bget ((t.beneficiaries.getD []).foldl (fun acc ben =>
          bset acc ben.user_id
            (bget acc ben.user_id - t.amount.getD 0 * ben.share.getD 0))
        (bset b t.payer_id (bget b t.payer_id))) t.payer_id + t.amount.getD 0) := by
  simp only [processRecord]
  rw [if_neg (not_not.mpr h1), if_neg h2, if_pos h3]

theorem processRecord_equal (b : Balances) (t : TransactionRecord)
    (h1 : t.type = some "social")
    (h2 : ¬(falsy t.payer_id ∨ t.amount.getD 0 ≤ 0 ∨ t.beneficiaries.getD [] = []))
    (h3 : t.split_method ≠ some "percentage") :
    processRecord b t =
      bset ((t.beneficiaries.getD []).foldl (fun acc ben =>
          bset acc ben.user_id
            (bget acc ben.user_id
              - t.amount.getD 0 / ((t.beneficiaries.getD []).length : ℚ)))
        (bset b t.payer_id (bget b t.payer_id)))
        t.payer_id
        (bget ((t.beneficiaries.getD []).foldl (fun acc ben =>
          bset acc ben.user_id
            (bget acc ben.user_id
              - t.amount.getD 0 / ((t.beneficiaries.getD []).length : ℚ)))
        (bset b t.payer_id (bget b t.payer_id))) t.payer_id + t.amount.getD 0) := by
  simp only [processRecord]
  rw [if_neg (not_not.mpr h1), if_neg h2, if_neg h3]

theorem not_skip_of_isProcessed (t : TransactionRecord) (h : isProcessed t) :
    ¬(falsy t.payer_id ∨ t.amount.getD 0 ≤ 0 ∨ t.beneficiaries.getD [] = []) := by
  rcases h with ⟨-, h2, h3, h4⟩
  push_neg
  exact ⟨by simp [h2], h3, h4⟩

theorem isProcessed_of_not_skip (t : TransactionRecord)
    (h1 : t.type = some "social")
    (h2 : ¬(falsy t.payer_id ∨ t.amount.getD 0 ≤ 0 ∨ t.beneficiaries.getD [] = [])) :
    isProcessed t := by
  push_neg at h2
  rcases h2 with ⟨ha, hb, hc⟩
  refine ⟨h1, ?_, hb, hc⟩
  cases hf : falsy t.payer_id
  · rfl
  · exact absurd hf ha

theorem processRecord_nodup (b : Balances) (t : TransactionRecord)
    (hnd : b.keys.Nodup) : (processRecord b t).keys.Nodup := by
  by_cases h1 : t.type = some "social"
  · by_cases h2 : falsy t.payer_id ∨ t.amount.getD 0 ≤ 0 ∨ t.beneficiaries.getD [] = []
    · rw [processRecord_skip b t h1 h2]; exact hnd
    · by_cases h3 : t.split_method = some "percentage"
      · rw [processRecord_pct b t h1 h2 h3]
        exact nodup_keys_bset _ _ _
          (foldl_debit_nodup _ _ _ (nodup_keys_bset _ _ _ hnd))
      · rw [processRecord_equal b t h1 h2 h3]
        exact nodup_keys_bset _ _ _
          (foldl_debit_nodup _ _ _ (nodup_keys_bset _ _ _ hnd))
  · rw [processRecord_not_social b t h1]; exact hnd

theorem processRecord_sumVals_pct (b : Balances) (t : TransactionRecord)
    (hnd : b.keys.Nodup) (hpr : isProcessed t)
    (hpct : t.split_method = some "percentage") :
    sumVals (processRecord b t)
      = sumVals b + t.amount.getD 0 * (1 - sharesSum t) := by
  rw [processRecord_pct b t hpr.1 (not_skip_of_isProcessed t hpr) hpct]
  have hnd1 : (bset b t.payer_id (bget b t.payer_id)).keys.Nodup :=
    nodup_keys_bset _ _ _ hnd
  have hnd2 :=
    foldl_debit_nodup (fun ben => t.amount.getD 0 * ben.share.getD 0)
      (t.beneficiaries.getD []) _ hnd1
  rw [sumVals_bset _ _ _ hnd2,
    foldl_debit_sumVals (fun ben => t.amount.getD 0 * ben.share.getD 0) _ _ hnd1,
    sumVals_bset _ _ _ hnd, List.sum_map_mul_left]
  unfold sharesSum
  ring

theorem processRecord_sumVals_equal (b : Balances) (t : TransactionRecord)
    (hnd : b.keys.Nodup) (hpr : isProcessed t)
    (hne : t.split_method ≠ some "percentage") :
    sumVals (processRecord b t) = sumVals b := by
  rw [processRecord_equal b t hpr.1 (not_skip_of_isProcessed t hpr) hne]
  have hnd1 : (bset b t.payer_id (bget b t.payer_id)).keys.Nodup :=
    nodup_keys_bset _ _ _ hnd
  have hnd2 :=
    foldl_debit_nodup
      (fun _ => t.amount.getD 0 / ((t.beneficiaries.getD []).length : ℚ))
      (t.beneficiaries.getD []) _ hnd1
  rw [sumVals_bset _ _ _ hnd2,
    foldl_debit_sumVals
      (fun _ => t.amount.getD 0 / ((t.beneficiaries.getD []).length : ℚ))
      _ _ hnd1,
    sumVals_bset _ _ _ hnd]
  have hlen : ((t.beneficiaries.getD []).length : ℚ) ≠ 0 := by
    have hpos : 0 < (t.beneficiaries.getD []).length :=
      List.length_pos.mpr hpr.2.2.2
    exact_mod_cast Nat.pos_iff_ne_zero.mp hpos
  have hsum :
      ((t.beneficiaries.getD []).map
        (fun _ => t.amount.getD 0 / ((t.beneficiaries.getD []).length : ℚ))).sum
        = t.amount.getD 0 := by
    rw [List.map_const', List.sum_replicate, nsmul_eq_mul, mul_comm,
      div_mul_cancel₀ _ hlen]
  rw [hsum]
  ring

theorem processRecord_sumVals_preserved (b : Balances) (t : TransactionRecord)
    (hnd : b.keys.Nodup)
    (hsh : isProcessed t → t.split_method = some "percentage" → sharesSum t = 1) :
    sumVals (processRecord b t) = sumVals b := by
  by_cases h1 : t.type = some "social"
  · by_cases h2 : falsy t.payer_id ∨ t.amount.getD 0 ≤ 0 ∨ t.beneficiaries.getD [] = []
    · rw [processRecord_skip b t h1 h2]
    · have hpr : isProcessed t := isProcessed_of_not_skip t h1 h2
      by_cases h3 : t.split_method = some "percentage"
      · rw [processRecord_sumVals_pct b t hnd hpr h3, hsh hpr h3]
        ring
      · exact processRecord_sumVals_equal b t hnd hpr h3
  · rw [processRecord_not_social b t h1]

/-! ## Per-key effect of the percentage branch -/

theorem pct_bget_ben (b : Balances) (t : TransactionRecord)
    (hpr : isProcessed t) (hpct : t.split_method = some "percentage")
    (hbnd : ((t.beneficiaries.getD []).map (fun ben => ben.user_id)).Nodup)
    (ben : Beneficiary) (hben : ben ∈ t.beneficiaries.getD [])
    (hne : ben.user_id ≠ t.payer_id) :
    bget (processRecord b t) ben.user_id
      = bget b ben.user_id - t.amount.getD 0 * ben.share.getD 0 := by
  rw [processRecord_pct b t hpr.1 (not_skip_of_isProcessed t hpr) hpct,
    bget_bset, if_neg hne, foldl_debit_bget,
    filter_user_id_eq_singleton _ hbnd ben hben,
    bget_bset, if_neg hne]
  simp

theorem pct_mem_keys (b : Balances) (t : TransactionRecord)
    (hpr : isProcessed t) (hpct : t.split_method = some "percentage")
    (ben : Beneficiary) (hben : ben ∈ t.beneficiaries.getD []) :
    ben.user_id ∈ (processRecord b t).keys := by
  rw [processRecord_pct b t hpr.1 (not_skip_of_isProcessed t hpr) hpct,
    mem_keys_bset]
  left
  rw [foldl_debit_mem]
  exact Or.inr ⟨ben, hben, rfl⟩

theorem pct_bget_payer_not_ben (b : Balances) (t : TransactionRecord)
    (hpr : isProcessed t) (hpct : t.split_method = some "percentage")
    (hpk : t.payer_id ∉ (t.beneficiaries.getD []).map (fun ben => ben.user_id)) :
    bget (processRecord b t) t.payer_id
      = bget b t.payer_id + t.amount.getD 0 := by
  rw [processRecord_pct b t hpr.1 (not_skip_of_isProcessed t hpr) hpct,
    bget_bset, if_pos rfl, foldl_debit_bget, filter_user_id_eq_nil _ _ hpk,
    bget_bset, if_pos rfl]
  simp

theorem pct_bget_payer_ben (b : Balances) (t : TransactionRecord)
    (hpr : isProcessed t) (hpct : t.split_method = some "percentage")
    (hbnd : ((t.beneficiaries.getD []).map (fun ben => ben.user_id)).Nodup)
    (ben : Beneficiary) (hben : ben ∈ t.beneficiaries.getD [])
    (huid : ben.user_id = t.payer_id) :
    bget (processRecord b t) t.payer_id
      = bget b t.payer_id + t.amount.getD 0
          - t.amount.getD 0 * ben.share.getD 0 := by
  rw [processRecord_pct b t hpr.1 (not_skip_of_isProcessed t hpr) hpct,
    bget_bset, if_pos rfl, foldl_debit_bget]
  have hfil : (t.beneficiaries.getD []).filter
      (fun x => x.user_id == t.payer_id) = [ben] := by
    rw [← huid]
    exact filter_user_id_eq_singleton _ hbnd ben hben
  rw [hfil, bget_bset, if_pos rfl]
  simp only [List.map_cons, List.map_nil, List.sum_cons, List.sum_nil]
  ring

/-! ## Agreement of the implementation sums with the spec-side sums -/

theorem income_eq_incomeSpec (ts : List TransactionRecord) :
    ((ts.filter fun t => t.direction == some "income").map
      fun t => t.amount.getD 0).sum = incomeSpec ts := by
  induction ts with
  | nil => rfl
  | cons t rest ih =>
      by_cases h : t.direction = some "income"
      · rw [List.filter_cons_of_pos (by simpa using h)]
        simp only [List.map_cons, List.sum_cons, incomeSpec, if_pos h, ih]
      · rw [List.filter_cons_of_neg (by simpa using h)]
        simp only [incomeSpec, if_neg h, zero_add, ih]

theorem expense_eq_expenseSpec (ts : List TransactionRecord) :
    ((ts.filter fun t => t.direction == some "expense").map
      fun t => t.amount.getD 0).sum = expenseSpec ts := by
  induction ts with
  | nil => rfl
  | cons t rest ih =>
      by_cases h : t.direction = some "expense"
      · rw [List.filter_cons_of_pos (by simpa using h)]
        simp only [List.map_cons, List.sum_cons, expenseSpec, if_pos h, ih]
      · rw [List.filter_cons_of_neg (by simpa using h)]
        simp only [expenseSpec, if_neg h, zero_add, ih]

theorem pendingSum_eq_pendingSpec (ts : List TransactionRecord) :
    pendingSum ts = pendingSpec ts := by
  unfold pendingSum
  induction ts with
  | nil => rfl
  | cons t rest ih =>
      by_cases h : t.status = some "Pending"
      · rw [List.filter_cons_of_pos (by simpa using h)]
        simp only [List.map_cons, List.sum_cons, pendingSpec, if_pos h, ih]
      · rw [List.filter_cons_of_neg (by simpa using h)]
        simp only [pendingSpec, if_neg h, zero_add, ih]

/-! ## Claim theorems -/

/-- C1: over any transaction sequence in which every record that the
social netting actually processes with the percentage split has shares
summing exactly to 1, the values of the balance map returned by
`compute_social_balances` sum to exactly 0 — in particular for any single
well-formed social transaction under either split method. -/
theorem social_balances_zero_sum (ts : List TransactionRecord)
    (h : ∀ t ∈ ts, isProcessed t → t.split_method = some "percentage" →
      sharesSum t = 1) :
    sumVals (compute_social_balances ts) = 0 := by
  have H : ∀ l : List TransactionRecord,
      (∀ t ∈ l, isProcessed t → t.split_method = some "percentage" →
        sharesSum t = 1) →
      ∀ b : Balances, b.keys.Nodup →
        sumVals (l.foldl processRecord b) = sumVals b := by
    intro l
    induction l with
    | nil => intro _ b _; rfl
    | cons t rest ih =>
        intro hl b hnd
        simp only [List.foldl_cons]
        rw [ih (fun x hx => hl x (List.mem_cons_of_mem t hx)) _
          (processRecord_nodup b t hnd)]
        exact processRecord_sumVals_preserved b t hnd
          (hl t (List.mem_cons_self t rest))
  unfold compute_social_balances
  rw [H ts h Balances.empty nodup_empty, sumVals_empty]

theorem social_balances_zero_sum_witness :
    sumVals (compute_social_balances [tEqual, tPct]) = 0 :=
  social_balances_zero_sum [tEqual, tPct] (by
    intro t ht hpr hpct
    rcases List.mem_cons.mp ht with h | h
    · subst h
      simp [tEqual] at hpct
    · rcases List.mem_cons.mp h with h | h
      · subst h
        norm_num [sharesSum, tPct]
      · cases h)

/-- C2: `compute_cash_flow` returns income equal to the sum of `amount`
over income-directed records, expense likewise over expense-directed
records, `net = income - expense`; other or absent directions contribute
to neither sum, a missing amount contributes 0, and the empty sequence
yields the all-zero result. -/
theorem compute_cash_flow_correct (ts : List TransactionRecord) :
    (compute_cash_flow ts).income = incomeSpec ts ∧
    (compute_cash_flow ts).expense = expenseSpec ts ∧
    (compute_cash_flow ts).net = incomeSpec ts - expenseSpec ts ∧
    compute_cash_flow [] = ⟨0, 0, 0⟩ := by
  refine ⟨?_, ?_, ?_, by simp [compute_cash_flow]⟩
  · simpa only [compute_cash_flow] using income_eq_incomeSpec ts
  · simpa only [compute_cash_flow] using expense_eq_expenseSpec ts
  · simp only [compute_cash_flow]
    rw [income_eq_incomeSpec ts, expense_eq_expenseSpec ts]

/-- C6: in company mode the summary returns the §4.1 cash-flow result
together with `invoices.pending` equal to the sum of `amount` over all
fetched records in `Pending` status, regardless of direction or type. -/
theorem workspace_summary_company (txns : List TransactionRecord) :
    workspace_summary txns (some "company")
      = .company (compute_cash_flow txns) (pendingSpec txns) := by
  have h1 : workspace_summary txns (some "company")
      = .company (compute_cash_flow txns) (pendingSum txns) := rfl
  rw [h1, pendingSum_eq_pendingSpec txns]

/-- C10: a social-typed record with no amount field is treated as having
amount 0 and silently skipped: it contributes nothing to the balance map
and creates no entries. -/
theorem social_missing_amount_skipped (ts1 ts2 : List TransactionRecord)
    (t : TransactionRecord) (htype : t.type = some "social")
    (hamt : t.amount = none) :
    compute_social_balances (ts1 ++ t :: ts2)
      = compute_social_balances (ts1 ++ ts2) := by
  unfold compute_social_balances
  rw [List.foldl_append, List.foldl_append, List.foldl_cons]
  have hskip : processRecord (ts1.foldl processRecord Balances.empty) t
      = ts1.foldl processRecord Balances.empty := by
    apply processRecord_skip _ _ htype
    right; left
    rw [hamt]
    simp
  rw [hskip]

theorem social_missing_amount_skipped_witness :
    compute_social_balances ([tEqual] ++ tNoAmount :: [])
      = compute_social_balances ([tEqual] ++ []) :=
  social_missing_amount_skipped [tEqual] [] tNoAmount rfl rfl

/-- C4: in a percentage-split social record, every beneficiary gets an
entry and is debited `amount * share`, then the full amount is added to
the payer regardless of whether shares sum to 1; a payer who is also a
beneficiary nets `amount - own_share_amount`. -/
theorem percentage_split_effect (b : Balances) (t : TransactionRecord)
    (hpr : isProcessed t) (hpct : t.split_method = some "percentage")
    (hbnd : ((t.beneficiaries.getD []).map (fun ben => ben.user_id)).Nodup) :
    (∀ ben ∈ t.beneficiaries.getD [],
      ben.user_id ∈ (processRecord b t).keys) ∧
    (∀ ben ∈ t.beneficiaries.getD [], ben.user_id ≠ t.payer_id →
      bget (processRecord b t) ben.user_id
        = bget b ben.user_id - t.amount.getD 0 * ben.share.getD 0) ∧
    (t.payer_id ∉ (t.beneficiaries.getD []).map (fun ben => ben.user_id) →
      bget (processRecord b t) t.payer_id
        = bget b t.payer_id + t.amount.getD 0) ∧
    (∀ ben ∈ t.beneficiaries.getD [], ben.user_id = t.payer_id →
      bget (processRecord b t) t.payer_id
        = bget b t.payer_id
            + (t.amount.getD 0 - t.amount.getD 0 * ben.share.getD 0)) := by
  refine ⟨?_, ?_, ?_, ?_⟩
  · intro ben hben
    exact pct_mem_keys b t hpr hpct ben hben
  · intro ben hben hne
    exact pct_bget_ben b t hpr hpct hbnd ben hben hne
  · intro hpk
    exact pct_bget_payer_not_ben b t hpr hpct hpk
  · intro ben hben huid
    rw [pct_bget_payer_ben b t hpr hpct hbnd ben hben huid]
    ring

theorem percentage_split_effect_witness :
    bget (processRecord Balances.empty tPayerBen) tPayerBen.payer_id
      = bget Balances.empty tPayerBen.payer_id
          + (tPayerBen.amount.getD 0
              - tPayerBen.amount.getD 0
                  * ((⟨some "P", some (1/4)⟩ : Beneficiary).share.getD 0)) :=
  (percentage_split_effect Balances.empty tPayerBen
      ⟨rfl, rfl, by norm_num [tPayerBen], by simp [tPayerBen]⟩ rfl
      (by decide)).2.2.2
    ⟨some "P", some (1/4)⟩
    (by rw [show tPayerBen.beneficiaries.getD []
            = [⟨some "P", some (1/4)⟩, ⟨some "A", some (3/4)⟩,
               ⟨some "B", none⟩] from rfl]
        exact List.mem_cons_self _ _)
    rfl

/-- C9: in a percentage-split social record, a beneficiary whose share
field is absent is debited 0, and an entry for its user id is still
created in the map (at 0 if it did not already exist). -/
theorem percentage_missing_share (b : Balances) (t : TransactionRecord)
    (hpr : isProcessed t) (hpct : t.split_method = some "percentage")
    (hbnd : ((t.beneficiaries.getD []).map (fun ben => ben.user_id)).Nodup)
    (ben : Beneficiary) (hben : ben ∈ t.beneficiaries.getD [])
    (hshare : ben.share = none) (hne : ben.user_id ≠ t.payer_id) :
    ben.user_id ∈ (processRecord b t).keys ∧
    bget (processRecord b t) ben.user_id = bget b ben.user_id ∧
    (ben.user_id ∉ b.keys → bget (processRecord b t) ben.user_id = 0) := by
  have h2 : bget (processRecord b t) ben.user_id = bget b ben.user_id := by
    rw [pct_bget_ben b t hpr hpct hbnd ben hben hne, hshare]
    simp
  refine ⟨pct_mem_keys b t hpr hpct ben hben, h2, ?_⟩
  intro hnot
  rw [h2]
  unfold bget
  rw [if_neg hnot]

theorem percentage_missing_share_witness :
    (⟨some "B", none⟩ : Beneficiary).user_id
        ∈ (processRecord Balances.empty tPayerBen).keys ∧
    bget (processRecord Balances.empty tPayerBen) (some "B")
      = bget Balances.empty (some "B") := by
  have h := percentage_missing_share Balances.empty tPayerBen
    ⟨rfl, rfl, by norm_num [tPayerBen], by simp [tPayerBen]⟩ rfl
    (by decide)
    ⟨some "B", none⟩
    (by rw [show tPayerBen.beneficiaries.getD []
            = [⟨some "P", some (1/4)⟩, ⟨some "A", some (3/4)⟩,
               ⟨some "B", none⟩] from rfl]
        exact List.mem_cons_of_mem _ (List.mem_cons_of_mem _
          (List.mem_cons_self _ _)))
    rfl
    (by decide)
  exact ⟨h.1, h.2.1⟩

/-- C3 as stated is false: for a single over-allocated percentage split
(shares summing to 1.2), the sum of the returned map is not
`amount * 0.8`. -/
theorem percentage_overallocation_claim_false :
    sumVals (compute_social_balances [tOver])
      ≠ tOver.amount.getD 0 * (8/10) := by
  have h0 : compute_social_balances [tOver]
      = processRecord Balances.empty tOver := rfl
  have hpr : isProcessed tOver :=
    ⟨rfl, rfl, by norm_num [tOver], by simp [tOver]⟩
  have hs : sumVals (compute_social_balances [tOver])
      = sumVals Balances.empty
          + tOver.amount.getD 0 * (1 - sharesSum tOver) := by
    rw [h0]
    exact processRecord_sumVals_pct Balances.empty tOver nodup_empty hpr rfl
  rw [hs, sumVals_empty]
  norm_num [sharesSum, tOver]

/-- C3 (amended): for a single social transaction with percentage split
whose beneficiary shares sum to 1.2, the payer is credited the full
amount, each beneficiary is debited exactly `amount * share`, and the
sum of the returned map equals `amount - amount*1.2` (so it is not
zero-sum) — not `amount*0.8` as the claim computed. -/
theorem percentage_overallocation_sum (t : TransactionRecord)
    (hpr : isProcessed t) (hpct : t.split_method = some "percentage")
    (hsh : sharesSum t = 12/10)
    (hbnd : ((t.beneficiaries.getD []).map (fun ben => ben.user_id)).Nodup)
    (hpk : t.payer_id ∉ (t.beneficiaries.getD []).map (fun ben => ben.user_id)) :
    bget (compute_social_balances [t]) t.payer_id = t.amount.getD 0 ∧
    (∀ ben ∈ t.beneficiaries.getD [],
      bget (compute_social_balances [t]) ben.user_id
        = -(t.amount.getD 0 * ben.share.getD 0)) ∧
    sumVals (compute_social_balances [t])
      = t.amount.getD 0 - t.amount.getD 0 * (12/10) ∧
    sumVals (compute_social_balances [t]) ≠ 0 := by
  have h0 : compute_social_balances [t] = processRecord Balances.empty t := rfl
  have hsum : sumVals (compute_social_balances [t])
      = t.amount.getD 0 - t.amount.getD 0 * (12/10) := by
    rw [h0, processRecord_sumVals_pct Balances.empty t nodup_empty hpr hpct,
      sumVals_empty, hsh]
    ring
  refine ⟨?_, ?_, hsum, ?_⟩
  · rw [h0, pct_bget_payer_not_ben Balances.empty t hpr hpct hpk, bget_empty,
      zero_add]
  · intro ben hben
    have hne : ben.user_id ≠ t.payer_id := fun e =>
      hpk (e ▸ List.mem_map_of_mem (fun x => x.user_id) hben)
    rw [h0, pct_bget_ben Balances.empty t hpr hpct hbnd ben hben hne,
      bget_empty]
    ring
  · rw [hsum]
    have hpos : 0 < t.amount.getD 0 := hpr.2.2.1
    have : t.amount.getD 0 - t.amount.getD 0 * (12/10)
        = -(t.amount.getD 0 * (2/10)) := by ring
    rw [this]
    simp only [ne_eq, neg_eq_zero, mul_eq_zero, not_or]
    exact ⟨ne_of_gt hpos, by norm_num⟩

theorem percentage_overallocation_sum_witness :
    sumVals (compute_social_balances [tOver])
      = tOver.amount.getD 0 - tOver.amount.getD 0 * (12/10) :=
  (percentage_overallocation_sum tOver
      ⟨rfl, rfl, by norm_num [tOver], by simp [tOver]⟩ rfl
      (by norm_num [sharesSum, tOver]) (by decide) (by decide)).2.2.1

/-- C5: both pseudo-AI endpoints always return exactly one output and
never surface an error: with the quota flag set they return the demo
result (quota message for receipt-scan), and on any other exception the
demo result (generic message for receipt-scan; the identical demo
payload as the quota case for the advisor). -/
theorem ai_endpoints_failsafe (sq : Bool) (fr : Except Unit (List Nat))
    (today : String) (ft : Except Unit (List TransactionRecord)) (now : ℤ) :
    (∃ r, receipt_scan sq fr today = .ok r) ∧
    (∃ a, financial_advisor sq ft now = .ok a) ∧
    (sq = true → receipt_scan sq fr today
      = .ok ⟨"Demo Store", 50, today, true,
             some "Quota exceeded - using demo data"⟩) ∧
    (sq = true → financial_advisor sq ft now = .ok advisorDemo) ∧
    (sq = false → ∀ e, fr = .error e → receipt_scan sq fr today
      = .ok ⟨"Demo Store", 50, today, true,
             some "AI unavailable - using demo data"⟩) ∧
    (sq = false → ∀ e, ft = .error e → financial_advisor sq ft now
      = .ok advisorDemo) := by
  refine ⟨?_, ?_, ?_, ?_, ?_, ?_⟩
  · cases sq
    · cases fr with
      | error e => exact ⟨_, rfl⟩
      | ok c => exact ⟨_, rfl⟩
    · exact ⟨_, rfl⟩
  · cases sq
    · cases ft with
      | error e => exact ⟨_, rfl⟩
      | ok txns => exact ⟨_, rfl⟩
    · exact ⟨_, rfl⟩
  · intro h
    subst h
    rfl
  · intro h
    subst h
    rfl
  · intro h e he
    subst h
    subst he
    rfl
  · intro h e he
    subst h
    subst he
    rfl

theorem ai_endpoints_failsafe_witness :
    receipt_scan true (.ok [7]) "2026-10-12"
      = .ok ⟨"Demo Store", 50, "2026-10-12", true,
             some "Quota exceeded - using demo data"⟩ ∧
    financial_advisor false (.error ()) 0 = .ok advisorDemo :=
  ⟨(ai_endpoints_failsafe true (.ok [7]) "2026-10-12" (.ok []) 0).2.2.1 rfl,
   (ai_endpoints_failsafe false (.ok []) "2026-10-12"
      (.error ()) 0).2.2.2.2.2 rfl () rfl⟩

/-- C7: with the quota flag off, the advisor computes cash flow over
exactly the fetched transactions in the 30-day window, where a record
with no date is treated as exactly at the boundary and included; if the
resulting net is negative the response is the non-demo
cut-non-essentials advice with `net30 = net`. -/
theorem advisor_30day_negative_net (txns : List TransactionRecord)
    (now : ℤ) :
    advisor_window now txns = advisor_window_spec now txns ∧
    ((compute_cash_flow (advisor_window_spec now txns)).net < 0 →
      financial_advisor false (.ok txns) now
        = .ok ⟨false,
               "Spending exceeds income. Consider cutting non-essentials.",
               some (compute_cash_flow (advisor_window_spec now txns)).net⟩) := by
  have hw : advisor_window now txns = advisor_window_spec now txns := by
    unfold advisor_window advisor_window_spec
    apply List.filter_congr
    intro t ht
    cases hd : t.date with
    | none => simp
    | some d => simp
  refine ⟨hw, ?_⟩
  intro hneg
  have hbody : financial_advisor_body false (.ok txns) now
      = .ok ⟨false,
             if 0 ≤ (compute_cash_flow (advisor_window now txns)).net then
               "You\x27re on track. Keep expenses under 80% of income."
             else
               "Spending exceeds income. Consider cutting non-essentials.",
             some (compute_cash_flow (advisor_window now txns)).net⟩ := rfl
  rw [hw, if_neg (not_le.mpr hneg)] at hbody
  unfold financial_advisor
  rw [hbody]

theorem advisor_30day_negative_net_witness :
    financial_advisor false (.ok [tExpense29]) 100
      = .ok ⟨false,
             "Spending exceeds income. Consider cutting non-essentials.",
             some (compute_cash_flow (advisor_window_spec 100 [tExpense29])).net⟩ :=
  (advisor_30day_negative_net [tExpense29] 100).2
    (by simp [compute_cash_flow, advisor_window_spec, tExpense29,
      List.filter_cons, List.filter_nil])

/-- C8: the receipt-scan response does not depend on the uploaded file's
bytes: two calls with the same quota flag and timestamp agree for any two
file contents, returning the demo payload (amount 50, demo true) when
quota is simulated and the fixed mock (merchant "Parsed Merchant",
amount 42.5, demo false) otherwise. -/
theorem receipt_scan_content_independent (sq : Bool) (c1 c2 : List Nat)
    (today : String) :
    receipt_scan sq (.ok c1) today = receipt_scan sq (.ok c2) today ∧
    (sq = true → receipt_scan sq (.ok c1) today
      = .ok ⟨"Demo Store", 50, today, true,
             some "Quota exceeded - using demo data"⟩) ∧
    (sq = false → receipt_scan sq (.ok c1) today
      = .ok ⟨"Parsed Merchant", 85/2, today, false, none⟩) := by
  refine ⟨?_, ?_, ?_⟩
  · cases sq <;> rfl
  · intro h
    subst h
    rfl
  · intro h
    subst h
    rfl

theorem receipt_scan_content_independent_witness :
    receipt_scan false (.ok [0]) "2026-10-12"
        = receipt_scan false (.ok [1, 2]) "2026-10-12" ∧
    receipt_scan false (.ok [0]) "2026-10-12"
      = .ok ⟨"Parsed Merchant", 85/2, "2026-10-12", false, none⟩ :=
  ⟨(receipt_scan_content_independent false [0] [1, 2] "2026-10-12").1,
   (receipt_scan_content_independent false [0] [1, 2] "2026-10-12").2.2 rfl⟩

end EliteMoney
